import Mathlib

/-!
# Verification of the Couchbase platform `cb::Pipe` (elastic byte window)

Shallow embedding of `src/pipe.cc`. Bytes are modelled as `Nat`, the owned
buffer as a `List Nat` whose length is the current capacity, and the fallible
operations (which throw `std::logic_error` in C++) return `Except String`.
The members declared in the missing header `platform/pipe.h` (`wsize`,
`getAvailableReadSpace`, `getAvailableWriteSpace`, the zero-initialised
offsets and the `locked` flag) are modelled from the spec, as noted on each.
-/

set_option autoImplicit false

namespace PipeModel

/-- The window state.  `memory` is the owned block (its length is the
capacity, `buffer.size()` in the source); `read_head`/`write_head` are the
offsets; `allocation_chunk_size` is the growth unit fixed at construction;
`locked` is the cooperative lock flag.
Modelled from the spec: the header (not under `src/`) declares the fields
with `read_head = write_head = 0` and `locked = false` initially. -/
structure Pipe where
  memory : List Nat
  read_head : Nat
  write_head : Nat
  allocation_chunk_size : Nat
  locked : Bool
deriving DecidableEq

/-- `Pipe::defaultAllocationChunkSize = 512`. -/
def defaultAllocationChunkSize : Nat := 512

/-- `calculateAllocationChunkSize`: round `nbytes` up to a multiple of the
default chunk size. -/
def calculateAllocationChunkSize (nbytes : Nat) : Nat :=
  let chunks := nbytes / defaultAllocationChunkSize
  let chunks := if nbytes % defaultAllocationChunkSize ≠ 0 then chunks + 1 else chunks
  chunks * defaultAllocationChunkSize

/-- The constructor `Pipe::Pipe(size)`: allocates exactly `size` bytes
(uninitialised in C++; modelled as zeros) and fixes the growth unit as
`max(calculateAllocationChunkSize(size), 512)`.
Modelled from the spec (header missing): offsets start at `0`, unlocked. -/
def Pipe.make (size : Nat) : Pipe :=
  { memory := List.replicate size 0
    read_head := 0
    write_head := 0
    allocation_chunk_size :=
      max (calculateAllocationChunkSize size) defaultAllocationChunkSize
    locked := false }

/-- Modelled from the spec: `wsize()` returns the writable tail space
`capacity - write_offset` (the source returns `wsize()` exactly where the
spec says "return `capacity - write_offset`"). -/
def Pipe.wsize (p : Pipe) : Nat := p.memory.length - p.write_head

/-- Modelled from the spec: `getAvailableReadSpace()` is a view of the
readable window `storage[read_offset, write_offset)`. -/
def Pipe.getAvailableReadSpace (p : Pipe) : List Nat :=
  (p.memory.drop p.read_head).take (p.write_head - p.read_head)

/-- Modelled from the spec: `getAvailableWriteSpace()` is a view of the
writable tail `storage[write_offset, capacity)`. -/
def Pipe.getAvailableWriteSpace (p : Pipe) : List Nat :=
  p.memory.drop p.write_head

/-- `Pipe::empty()`. -/
def Pipe.empty (p : Pipe) : Bool := p.read_head == p.write_head

/-- `Pipe::full()`. -/
def Pipe.full (p : Pipe) : Bool := p.write_head == p.memory.length

/-- `Pipe::lock()`. -/
def Pipe.lock (p : Pipe) : Except String Pipe :=
  if p.locked then .error "Pipe::lock(): Buffer already locked"
  else .ok { p with locked := true }

/-- `Pipe::unlock()`. -/
def Pipe.unlock (p : Pipe) : Except String Pipe :=
  if !p.locked then .error "Pipe::unlock(): Buffer not locked"
  else .ok { p with locked := false }

/-- `Pipe::clear()`. -/
def Pipe.clear (p : Pipe) : Except String Pipe :=
  if p.locked then .error "Pipe::clear(): Buffer locked"
  else .ok { p with read_head := 0, write_head := 0 }

/-- `Pipe::produced(nbytes)`: advance the write head, after the caller wrote
into the granted tail region. -/
def Pipe.produced (p : Pipe) (nbytes : Nat) : Except String Pipe :=
  if p.locked then .error "Pipe::produced(): Buffer locked"
  else if p.write_head + nbytes > p.memory.length then
    .error "Pipe::produced(): Produced bytes exceeds the number of available bytes"
  else .ok { p with write_head := p.write_head + nbytes }

/-- `Pipe::consumed(nbytes)`: advance the read head; when the heads meet
both are reset to `0`. -/
def Pipe.consumed (p : Pipe) (nbytes : Nat) : Except String Pipe :=
  if p.locked then .error "Pipe::consumed(): Buffer locked"
  else if p.read_head + nbytes > p.write_head then
    .error "Pipe::consumed(): Consumed bytes exceeds the number of available bytes"
  else if p.read_head + nbytes = p.write_head then
    .ok { p with read_head := 0, write_head := 0 }
  else .ok { p with read_head := p.read_head + nbytes }

/-- The `::memmove(buffer.data(), buffer.data() + read_head, write_head -
read_head)` of `Pipe::pack()` : positions `[0, w-r)` receive the old bytes
`[r, w)`, positions from `w-r` on keep their old contents. -/
def memmoveDown (mem : List Nat) (r w : Nat) : List Nat :=
  ((mem.drop r).take (w - r)) ++ mem.drop (w - r)

/-- The state transformation of `Pipe::pack()`: reset the heads when the
window is empty, otherwise slide the live window down to offset `0`. -/
def Pipe.packed (p : Pipe) : Pipe :=
  if p.read_head = p.write_head then
    { p with read_head := 0, write_head := 0 }
  else
    { p with memory := memmoveDown p.memory p.read_head p.write_head
             write_head := p.write_head - p.read_head
             read_head := 0 }

/-- `Pipe::pack()`: slide the live window down to offset `0` and report
whether the pipe is now empty. -/
def Pipe.pack (p : Pipe) : Except String (Pipe × Bool) :=
  if p.locked then .error "Pipe::pack(): Buffer locked"
  else .ok (p.packed, p.packed.empty)

/-- The search loop of `Pipe::ensureCapacity` (`while (count * acs + ts + rh
< nbytes) ++count;`), with explicit fuel: `none` models the C++ loop never
terminating (possible only if `allocation_chunk_size = 0`, which no
constructed pipe has). -/
def growCountAux (acs avail nbytes : Nat) : Nat → Nat → Option Nat
  | 0, _ => none
  | fuel + 1, count =>
    if count * acs + avail < nbytes then growCountAux acs avail nbytes fuel (count + 1)
    else some count

/-- The state built by the growth branch of `Pipe::ensureCapacity`: a fresh
block of `capacity + count * allocation_chunk_size` bytes (uninitialised in
C++, modelled as zeros) whose start receives the live window
`storage[read_head, write_head)`; the heads are slid down. -/
def Pipe.grown (p : Pipe) (count : Nat) : Pipe :=
  let nsize := p.memory.length + count * p.allocation_chunk_size
  let live := (p.memory.drop p.read_head).take (p.write_head - p.read_head)
  { p with memory := live ++ List.replicate (nsize - live.length) 0
           write_head := p.write_head - p.read_head
           read_head := 0 }

/-- `Pipe::ensureCapacity(nbytes)`.  The outer `Option` models termination of
the growth-count loop (`none` = the C++ loop spins forever); the `Except` is
the `std::logic_error` channel.  On success returns the new state and the
returned tail space. -/
def Pipe.ensureCapacity (p : Pipe) (nbytes : Nat) :
    Option (Except String (Pipe × Nat)) :=
  if p.locked then some (.error "Pipe::ensureCapacity(): Buffer locked")
  else if p.memory.length - p.write_head ≥ nbytes then some (.ok (p, p.wsize))
  else if nbytes ≤ (p.memory.length - p.write_head) + p.read_head then
    match p.pack with
    | .error e => some (.error e)
    | .ok (q, _) =>
      if q.wsize < nbytes then
        some (.error "Pipe::ensureCapacity: expecting pack to free up enough bytes")
      else some (.ok (q, q.wsize))
  else
    match growCountAux p.allocation_chunk_size
        ((p.memory.length - p.write_head) + p.read_head) nbytes nbytes 1 with
    | none => none
    | some count => some (.ok (p.grown count, (p.grown count).wsize))

/-- The memory mutation performed by a producer callback through the raw
view it was given: the writable tail is overwritten with the prefix `data`
the callback wrote; the rest of the tail keeps its old bytes. -/
def Pipe.fill (p : Pipe) (data : List Nat) : Pipe :=
  { p with memory := (p.memory.take p.write_head ++
      ((data ++ p.getAvailableWriteSpace.drop data.length).take
        p.getAvailableWriteSpace.length)) }

/-- `Pipe::produce(producer)`: hand the producer the writable tail; the
producer returns the new contents it wrote (a prefix of the region; the rest
keeps its old bytes) together with its `ssize_t` return value.  A positive
return `ret` is applied via `produced(ret)`. -/
def Pipe.produce (p : Pipe) (producer : List Nat → List Nat × Int) :
    Except String (Pipe × Int) :=
  if p.locked then .error "Pipe::produce(): Buffer locked"
  else if (producer p.getAvailableWriteSpace).2 > 0 then
    match (p.fill (producer p.getAvailableWriteSpace).1).produced
        (producer p.getAvailableWriteSpace).2.toNat with
    | .error e => .error e
    | .ok p2 => .ok (p2, (producer p.getAvailableWriteSpace).2)
  else .ok (p.fill (producer p.getAvailableWriteSpace).1,
    (producer p.getAvailableWriteSpace).2)

/-- `Pipe::consume(consumer)`: hand the consumer the readable window; a
positive return `ret` is applied via `consumed(ret)`. -/
def Pipe.consume (p : Pipe) (consumer : List Nat → Int) :
    Except String (Pipe × Int) :=
  if p.locked then .error "Pipe::consume(): Buffer locked"
  else if consumer p.getAvailableReadSpace > 0 then
    match p.consumed (consumer p.getAvailableReadSpace).toNat with
    | .error e => .error e
    | .ok p2 => .ok (p2, consumer p.getAvailableReadSpace)
  else .ok (p, consumer p.getAvailableReadSpace)

/-- The offset invariant of the window: `read_head ≤ write_head ≤ capacity`,
and an empty window sits at the start of storage. -/
def Inv (p : Pipe) : Prop :=
  p.read_head ≤ p.write_head ∧ p.write_head ≤ p.memory.length ∧
    (p.read_head = p.write_head → p.read_head = 0 ∧ p.write_head = 0)

instance (p : Pipe) : Decidable (Inv p) := by unfold Inv; infer_instance

/-- States reachable by any sequence of operations whose preconditions hold
(i.e. the call did not throw), starting from a constructed pipe. -/
inductive Reachable : Pipe → Prop
  | make (size : Nat) : Reachable (Pipe.make size)
  | ensureCapacity {p q : Pipe} {n ret : Nat} : Reachable p →
      p.ensureCapacity n = some (.ok (q, ret)) → Reachable q
  | produced {p q : Pipe} {n : Nat} : Reachable p →
      p.produced n = .ok q → Reachable q
  | consumed {p q : Pipe} {n : Nat} : Reachable p →
      p.consumed n = .ok q → Reachable q
  | pack {p q : Pipe} {b : Bool} : Reachable p →
      p.pack = .ok (q, b) → Reachable q
  | clear {p q : Pipe} : Reachable p → p.clear = .ok q → Reachable q
  | lock {p q : Pipe} : Reachable p → p.lock = .ok q → Reachable q
  | unlock {p q : Pipe} : Reachable p → p.unlock = .ok q → Reachable q
  | produce {p q : Pipe} {f : List Nat → List Nat × Int} {ret : Int} :
      Reachable p → p.produce f = .ok (q, ret) → Reachable q
  | consume {p q : Pipe} {f : List Nat → Int} {ret : Int} :
      Reachable p → p.consume f = .ok (q, ret) → Reachable q

theorem Inv_make (size : Nat) : Inv (Pipe.make size) :=
  ⟨Nat.le_refl _, Nat.zero_le _, fun _ => ⟨rfl, rfl⟩⟩

theorem Inv_produced {p q : Pipe} {n : Nat} (hp : Inv p)
    (h : p.produced n = .ok q) : Inv q := by
  obtain ⟨h1, h2, h3⟩ := hp
  unfold Pipe.produced at h
  split at h
  · exact absurd h (by simp)
  split at h
  · exact absurd h (by simp)
  rename_i hle
  injection h with h
  subst h
  refine ⟨by dsimp only; omega, by dsimp only; omega, fun he => ?_⟩
  dsimp only at he ⊢
  obtain ⟨hz1, hz2⟩ := h3 (by omega)
  omega

theorem Inv_consumed {p q : Pipe} {n : Nat} (hp : Inv p)
    (h : p.consumed n = .ok q) : Inv q := by
  obtain ⟨h1, h2, h3⟩ := hp
  unfold Pipe.consumed at h
  split at h
  · exact absurd h (by simp)
  split at h
  · exact absurd h (by simp)
  split at h <;> injection h with h <;> subst h
  · exact ⟨Nat.le_refl _, Nat.zero_le _, fun _ => ⟨rfl, rfl⟩⟩
  · rename_i hgt hne
    refine ⟨by dsimp only; omega, by dsimp only; omega, fun he => ?_⟩
    dsimp only at he ⊢
    omega

theorem length_memmoveDown {mem : List Nat} {r w : Nat} (hr : r ≤ w)
    (hw : w ≤ mem.length) : (memmoveDown mem r w).length = mem.length := by
  simp only [memmoveDown, List.length_append, List.length_take, List.length_drop]
  omega

theorem Inv_packed {p : Pipe} (hp : Inv p) : Inv p.packed := by
  obtain ⟨h1, h2, h3⟩ := hp
  unfold Pipe.packed
  split
  · exact ⟨Nat.le_refl _, Nat.zero_le _, fun _ => ⟨rfl, rfl⟩⟩
  · rename_i hne
    refine ⟨Nat.zero_le _, ?_, fun he => ?_⟩
    · show p.write_head - p.read_head ≤ (memmoveDown p.memory p.read_head p.write_head).length
      rw [length_memmoveDown h1 h2]
      omega
    · dsimp only at he ⊢
      omega

theorem Inv_pack {p q : Pipe} {b : Bool} (hp : Inv p)
    (h : p.pack = .ok (q, b)) : Inv q := by
  unfold Pipe.pack at h
  split at h
  · exact absurd h (by simp)
  injection h with h
  have hq := congrArg Prod.fst h
  dsimp only at hq
  subst hq
  exact Inv_packed hp

theorem Inv_clear {p q : Pipe} (h : p.clear = .ok q) : Inv q := by
  unfold Pipe.clear at h
  split at h
  · exact absurd h (by simp)
  injection h with h
  subst h
  exact ⟨Nat.le_refl _, Nat.zero_le _, fun _ => ⟨rfl, rfl⟩⟩

theorem Inv_lock {p q : Pipe} (hp : Inv p) (h : p.lock = .ok q) : Inv q := by
  unfold Pipe.lock at h
  split at h
  · exact absurd h (by simp)
  injection h with h
  subst h
  exact hp

theorem Inv_unlock {p q : Pipe} (hp : Inv p) (h : p.unlock = .ok q) : Inv q := by
  unfold Pipe.unlock at h
  split at h
  · exact absurd h (by simp)
  injection h with h
  subst h
  exact hp

theorem Inv_grown {p : Pipe} (count : Nat) (hp : Inv p) : Inv (p.grown count) := by
  obtain ⟨h1, h2, h3⟩ := hp
  unfold Pipe.grown
  refine ⟨Nat.zero_le _, ?_, fun he => ?_⟩
  · dsimp only
    simp only [List.length_append, List.length_take, List.length_drop,
      List.length_replicate]
    omega
  · dsimp only at he ⊢
    omega

theorem Inv_ensureCapacity {p q : Pipe} {n ret : Nat} (hp : Inv p)
    (h : p.ensureCapacity n = some (.ok (q, ret))) : Inv q := by
  unfold Pipe.ensureCapacity at h
  split at h
  · exact absurd h (by simp)
  split at h
  · simp only [Option.some.injEq, Except.ok.injEq, Prod.mk.injEq] at h
    obtain ⟨rfl, rfl⟩ := h
    exact hp
  split at h
  · -- compaction branch: the state is the pack result
    rcases hpk : p.pack with e | qb
    · rw [hpk] at h; exact absurd h (by simp)
    · obtain ⟨q', b⟩ := qb
      rw [hpk] at h
      dsimp only at h
      split at h
      · exact absurd h (by simp)
      simp only [Option.some.injEq, Except.ok.injEq, Prod.mk.injEq] at h
      obtain ⟨rfl, rfl⟩ := h
      exact Inv_pack hp hpk
  · -- growth branch
    rcases hgc : growCountAux p.allocation_chunk_size
        ((p.memory.length - p.write_head) + p.read_head) n n 1 with _ | count
    · rw [hgc] at h; exact absurd h (by simp)
    · rw [hgc] at h
      dsimp only at h
      simp only [Option.some.injEq, Except.ok.injEq, Prod.mk.injEq] at h
      obtain ⟨rfl, rfl⟩ := h
      exact Inv_grown count hp

theorem length_fill (p : Pipe) (data : List Nat)
    (h2 : p.write_head ≤ p.memory.length) :
    (p.fill data).memory.length = p.memory.length := by
  simp only [Pipe.fill, Pipe.getAvailableWriteSpace, List.length_append,
    List.length_take, List.length_drop]
  omega

theorem Inv_fill {p : Pipe} (data : List Nat) (hp : Inv p) : Inv (p.fill data) := by
  obtain ⟨h1, h2, h3⟩ := hp
  refine ⟨h1, ?_, h3⟩
  show p.write_head ≤ (p.fill data).memory.length
  rw [length_fill p data h2]
  exact h2

theorem Inv_produce {p q : Pipe} {f : List Nat → List Nat × Int} {ret : Int}
    (hp : Inv p) (h : p.produce f = .ok (q, ret)) : Inv q := by
  unfold Pipe.produce at h
  split at h
  · exact absurd h (by simp)
  split at h
  · rcases hpr : (p.fill (f p.getAvailableWriteSpace).1).produced
        (f p.getAvailableWriteSpace).2.toNat with e | p2
    · rw [hpr] at h; exact absurd h (by simp)
    · rw [hpr] at h
      dsimp only at h
      simp only [Except.ok.injEq, Prod.mk.injEq] at h
      obtain ⟨rfl, rfl⟩ := h
      exact Inv_produced (Inv_fill _ hp) hpr
  · simp only [Except.ok.injEq, Prod.mk.injEq] at h
    obtain ⟨rfl, rfl⟩ := h
    exact Inv_fill _ hp

theorem Inv_consume {p q : Pipe} {f : List Nat → Int} {ret : Int}
    (hp : Inv p) (h : p.consume f = .ok (q, ret)) : Inv q := by
  unfold Pipe.consume at h
  split at h
  · exact absurd h (by simp)
  split at h
  · rcases hcs : p.consumed (f p.getAvailableReadSpace).toNat with e | p2
    · rw [hcs] at h; exact absurd h (by simp)
    · rw [hcs] at h
      dsimp only at h
      simp only [Except.ok.injEq, Prod.mk.injEq] at h
      obtain ⟨rfl, rfl⟩ := h
      exact Inv_consumed hp hcs
  · simp only [Except.ok.injEq, Prod.mk.injEq] at h
    obtain ⟨rfl, rfl⟩ := h
    exact hp

theorem growCountAux_bound (acs avail nbytes : Nat) :
    ∀ (fuel count k : Nat), growCountAux acs avail nbytes fuel count = some k →
      nbytes ≤ k * acs + avail ∧ count ≤ k ∧
        ∀ j, count ≤ j → j < k → j * acs + avail < nbytes := by
  intro fuel
  induction fuel with
  | zero => intro count k h; exact absurd h (by simp [growCountAux])
  | succ fuel ih =>
    intro count k h
    rw [growCountAux] at h
    split at h
    · rename_i hlt
      obtain ⟨hb, hc, hall⟩ := ih (count + 1) k h
      refine ⟨hb, by omega, fun j hj1 hj2 => ?_⟩
      rcases Nat.eq_or_lt_of_le hj1 with rfl | hlt2
      · exact hlt
      · exact hall j hlt2 hj2
    · rename_i hge
      injection h with h
      subst h
      exact ⟨by omega, Nat.le_refl _, fun j hj1 hj2 => by omega⟩

theorem growCountAux_succeeds (acs avail nbytes : Nat) :
    ∀ (fuel count : Nat), nbytes ≤ (count + fuel) * acs + avail →
      ∃ k, growCountAux acs avail nbytes (fuel + 1) count = some k := by
  intro fuel
  induction fuel with
  | zero =>
    intro count hb
    refine ⟨count, ?_⟩
    rw [growCountAux, if_neg]
    simp only [Nat.add_zero] at hb
    omega
  | succ fuel ih =>
    intro count hb
    rw [growCountAux]
    split
    · refine ih (count + 1) ?_
      rw [show count + 1 + fuel = count + (fuel + 1) from by omega]
      exact hb
    · exact ⟨count, rfl⟩

theorem growCount_terminates (acs avail nbytes : Nat) (hacs : 1 ≤ acs)
    (hn : 1 ≤ nbytes) :
    ∃ k, growCountAux acs avail nbytes nbytes 1 = some k := by
  have hmul : nbytes * 1 ≤ nbytes * acs := Nat.mul_le_mul_left nbytes hacs
  have h := growCountAux_succeeds acs avail nbytes (nbytes - 1) 1 (by
    rw [show 1 + (nbytes - 1) = nbytes from by omega]
    omega)
  rwa [show nbytes - 1 + 1 = nbytes from by omega] at h

theorem length_grown (p : Pipe) (count : Nat) :
    (p.grown count).memory.length =
      p.memory.length + count * p.allocation_chunk_size := by
  simp only [Pipe.grown, List.length_append, List.length_take, List.length_drop,
    List.length_replicate]
  omega

theorem packed_heads (p : Pipe) (h1 : p.read_head ≤ p.write_head)
    (h2 : p.write_head ≤ p.memory.length) :
    p.packed.memory.length = p.memory.length ∧
      p.packed.write_head = p.write_head - p.read_head ∧
      p.packed.read_head = 0 := by
  unfold Pipe.packed
  split
  · rename_i he
    exact ⟨rfl, by dsimp only; omega, rfl⟩
  · exact ⟨length_memmoveDown h1 h2, rfl, rfl⟩

theorem pack_of_unlocked (p : Pipe) (hl : p.locked = false) :
    p.pack = .ok (p.packed, p.packed.empty) := by
  unfold Pipe.pack
  rw [if_neg (by simp [hl])]

/-- C1: every reachable state of the window (any sequence of construction,
ensureCapacity, produced, consumed, pack, clear, lock, unlock, produce,
consume whose preconditions hold) satisfies
`0 ≤ read_offset ≤ write_offset ≤ capacity`, and whenever
`read_offset = write_offset` both offsets are `0`. -/
theorem reachable_invariant {p : Pipe} (h : Reachable p) : Inv p := by
  induction h with
  | make size => exact Inv_make size
  | ensureCapacity _ hstep ih => exact Inv_ensureCapacity ih hstep
  | produced _ hstep ih => exact Inv_produced ih hstep
  | consumed _ hstep ih => exact Inv_consumed ih hstep
  | pack _ hstep ih => exact Inv_pack ih hstep
  | clear _ hstep _ => exact Inv_clear hstep
  | lock _ hstep ih => exact Inv_lock ih hstep
  | unlock _ hstep ih => exact Inv_unlock ih hstep
  | produce _ hstep ih => exact Inv_produce ih hstep
  | consume _ hstep ih => exact Inv_consume ih hstep

/-- Witness for C1 at a concrete reachable state: construct a 4-byte pipe,
mark 3 bytes produced, then 2 consumed. -/
theorem reachable_invariant_witness :
    Inv { memory := List.replicate 4 0, read_head := 2, write_head := 3,
          allocation_chunk_size := 512, locked := false } :=
  reachable_invariant
    (Reachable.consumed (n := 2) (Reachable.produced (n := 3)
      (Reachable.make 4) rfl) rfl)


/-- C2: for every unlocked window (with well-formed offsets), a successful
`ensureCapacity(n)` returns the tail space `capacity - write_offset` of the
state it leaves behind, that return value is at least `n`, and when the tail
space was already at least `n` before the call no field of the window is
mutated (the state is returned unchanged) and the old tail space is
returned. -/
theorem ensureCapacity_spec {p q : Pipe} {n ret : Nat}
    (hl : p.locked = false) (h1 : p.read_head ≤ p.write_head)
    (h2 : p.write_head ≤ p.memory.length)
    (h : p.ensureCapacity n = some (.ok (q, ret))) :
    ret = q.memory.length - q.write_head ∧ n ≤ ret ∧
      (n ≤ p.memory.length - p.write_head →
        q = p ∧ ret = p.memory.length - p.write_head) := by
  unfold Pipe.ensureCapacity at h
  rw [if_neg (by simp [hl])] at h
  by_cases hc1 : p.memory.length - p.write_head ≥ n
  · rw [if_pos hc1] at h
    simp only [Option.some.injEq, Except.ok.injEq, Prod.mk.injEq] at h
    obtain ⟨rfl, rfl⟩ := h
    exact ⟨rfl, hc1, fun _ => ⟨rfl, rfl⟩⟩
  · rw [if_neg hc1] at h
    by_cases hc2 : n ≤ (p.memory.length - p.write_head) + p.read_head
    · rw [if_pos hc2, pack_of_unlocked p hl] at h
      dsimp only at h
      by_cases hc3 : p.packed.wsize < n
      · rw [if_pos hc3] at h
        exact absurd h (by simp)
      · rw [if_neg hc3] at h
        simp only [Option.some.injEq, Except.ok.injEq, Prod.mk.injEq] at h
        obtain ⟨rfl, rfl⟩ := h
        exact ⟨rfl, by omega, fun hc => absurd hc hc1⟩
    · rw [if_neg hc2] at h
      rcases hgc : growCountAux p.allocation_chunk_size
          ((p.memory.length - p.write_head) + p.read_head) n n 1 with _ | count
      · rw [hgc] at h
        exact absurd h (by simp)
      · rw [hgc] at h
        dsimp only at h
        simp only [Option.some.injEq, Except.ok.injEq, Prod.mk.injEq] at h
        obtain ⟨rfl, rfl⟩ := h
        obtain ⟨hb, -, -⟩ := growCountAux_bound _ _ _ _ _ _ hgc
        refine ⟨rfl, ?_, fun hc => absurd hc hc1⟩
        show n ≤ (p.grown count).wsize
        unfold Pipe.wsize
        rw [length_grown p count]
        have hw : (p.grown count).write_head = p.write_head - p.read_head := rfl
        rw [hw]
        omega

/-- Witness for C2 at a concrete input: a fresh 4-byte pipe already has tail
space 4 ≥ 2, so `ensureCapacity 2` mutates nothing and returns 4. -/
theorem ensureCapacity_spec_witness :
    4 = (Pipe.make 4).memory.length - (Pipe.make 4).write_head ∧ 2 ≤ 4 ∧
      (2 ≤ (Pipe.make 4).memory.length - (Pipe.make 4).write_head →
        Pipe.make 4 = Pipe.make 4 ∧
          4 = (Pipe.make 4).memory.length - (Pipe.make 4).write_head) :=
  @ensureCapacity_spec (Pipe.make 4) (Pipe.make 4) 2 4 rfl
    (Nat.le_refl 0) (Nat.zero_le _) rfl

/-- C8: the internal-consistency failure of `ensureCapacity` is unreachable.
Whenever the tail is too small but compaction suffices
(`capacity - write_offset < n ≤ (capacity - write_offset) + read_offset`),
the tail space after the internal `pack()` is at least `n`, so the call
succeeds through the compaction branch and never takes the fatal branch. -/
theorem ensureCapacity_pack_no_internal_error (p : Pipe) (n : Nat)
    (hl : p.locked = false) (h1 : p.read_head ≤ p.write_head)
    (h2 : p.write_head ≤ p.memory.length)
    (hlow : p.memory.length - p.write_head < n)
    (hhigh : n ≤ (p.memory.length - p.write_head) + p.read_head) :
    n ≤ p.packed.wsize ∧
      p.ensureCapacity n = some (.ok (p.packed, p.packed.wsize)) := by
  obtain ⟨hml, hwr, hrd⟩ := packed_heads p h1 h2
  have hws : p.packed.wsize = p.memory.length - (p.write_head - p.read_head) := by
    unfold Pipe.wsize
    rw [hml, hwr]
  have hn : n ≤ p.packed.wsize := by rw [hws]; omega
  refine ⟨hn, ?_⟩
  unfold Pipe.ensureCapacity
  rw [if_neg (by simp [hl]), if_neg (by omega), if_pos hhigh,
    pack_of_unlocked p hl]
  dsimp only
  rw [if_neg (by omega)]

/-- Witness for C8 at a concrete input: capacity 4, read 2, write 4, request
2: the tail is 0 < 2 but packing frees the 2 consumed bytes. -/
theorem ensureCapacity_pack_no_internal_error_witness :
    2 ≤ (Pipe.packed ⟨[1, 2, 3, 4], 2, 4, 512, false⟩).wsize ∧
      Pipe.ensureCapacity ⟨[1, 2, 3, 4], 2, 4, 512, false⟩ 2 =
        some (.ok (Pipe.packed ⟨[1, 2, 3, 4], 2, 4, 512, false⟩,
          (Pipe.packed ⟨[1, 2, 3, 4], 2, 4, 512, false⟩).wsize)) :=
  ensureCapacity_pack_no_internal_error _ 2 rfl (by decide) (by decide)
    (by decide) (by decide)

/-- C9: every operation of the window terminates.  The only genuine loop is
the growth-count search in `ensureCapacity`; the model returns `none`
exactly when that C++ loop would spin forever, and with a positive
`allocation_chunk_size` (every constructed pipe has at least 512) the call
always returns. -/
theorem ensureCapacity_terminating (p : Pipe) (n : Nat)
    (hacs : 1 ≤ p.allocation_chunk_size) :
    (p.ensureCapacity n).isSome = true := by
  unfold Pipe.ensureCapacity
  split
  · rfl
  split
  · rfl
  split
  · rcases hpk : p.pack with e | ⟨q, b⟩
    · rfl
    · dsimp only
      split <;> rfl
  · rename_i hnl hc1 hc2
    obtain ⟨k, hk⟩ := growCount_terminates p.allocation_chunk_size
      ((p.memory.length - p.write_head) + p.read_head) n hacs (by omega)
    rw [hk]
    rfl

/-- Witness for C9 at a concrete input: a pipe constructed with size 0 must
grow to satisfy `ensureCapacity 5`, and the call completes. -/
theorem ensureCapacity_terminating_witness :
    1 ≤ (Pipe.make 0).allocation_chunk_size ∧
      ((Pipe.make 0).ensureCapacity 5).isSome = true :=
  ⟨by decide, ensureCapacity_terminating (Pipe.make 0) 5 (by decide)⟩

/-- C4: for every unlocked window with `read_offset = r` and
`write_offset = w`, `pack()` succeeds leaving `read_offset = 0` and
`write_offset = w - r`, the first `w - r` bytes of storage afterwards equal
the bytes previously at `[r, w)`, the capacity is unchanged, and the call
returns `true` iff the window is empty (`w = r`). -/
theorem pack_spec (p : Pipe) (hl : p.locked = false)
    (h1 : p.read_head ≤ p.write_head) (h2 : p.write_head ≤ p.memory.length) :
    ∃ q b, p.pack = .ok (q, b) ∧ q.read_head = 0 ∧
      q.write_head = p.write_head - p.read_head ∧
      q.memory.take (p.write_head - p.read_head) =
        (p.memory.drop p.read_head).take (p.write_head - p.read_head) ∧
      q.memory.length = p.memory.length ∧
      (b = true ↔ p.write_head = p.read_head) := by
  obtain ⟨hml, hwr, hrd⟩ := packed_heads p h1 h2
  refine ⟨p.packed, p.packed.empty, pack_of_unlocked p hl, hrd, hwr, ?_, hml, ?_⟩
  · by_cases he : p.read_head = p.write_head
    · have hm : p.packed.memory = p.memory := by
        unfold Pipe.packed
        rw [if_pos he]
      rw [hm, show p.write_head - p.read_head = 0 from by omega]
      simp
    · have hm : p.packed.memory = memmoveDown p.memory p.read_head p.write_head := by
        unfold Pipe.packed
        rw [if_neg he]
      rw [hm]
      unfold memmoveDown
      refine List.take_left' ?_
      simp only [List.length_take, List.length_drop]
      omega
  · show (p.packed.read_head == p.packed.write_head) = true ↔
      p.write_head = p.read_head
    rw [hrd, hwr, beq_iff_eq]
    omega

/-- Witness for C4 at a concrete input: capacity 4, read 1, write 3. -/
theorem pack_spec_witness :
    ∃ q b, Pipe.pack ⟨[1, 2, 3, 4], 1, 3, 512, false⟩ = .ok (q, b) ∧
      q.read_head = 0 ∧ q.write_head = 2 ∧ q.memory.take 2 = [2, 3] ∧
      q.memory.length = 4 ∧ (b = true ↔ (3 : Nat) = 1) :=
  pack_spec ⟨[1, 2, 3, 4], 1, 3, 512, false⟩ rfl (by decide) (by decide)

/-- C5: `produced(n)` fails when locked or when `write_offset + n` exceeds
the capacity and otherwise advances `write_offset` by exactly `n`;
`consumed(n)` fails when locked or when `read_offset + n` exceeds
`write_offset` and otherwise advances `read_offset` by exactly `n`,
resetting both offsets to `0` when they become equal.  A failing call
returns no state, so the offsets are untouched. -/
theorem produced_consumed_spec (p : Pipe) (n : Nat) :
    (p.locked = true ∨ p.write_head + n > p.memory.length →
      ∃ e, p.produced n = .error e) ∧
    (p.locked = false → p.write_head + n ≤ p.memory.length →
      p.produced n = .ok { p with write_head := p.write_head + n }) ∧
    (p.locked = true ∨ p.read_head + n > p.write_head →
      ∃ e, p.consumed n = .error e) ∧
    (p.locked = false → p.read_head + n ≤ p.write_head →
      (p.read_head + n = p.write_head →
        p.consumed n = .ok { p with read_head := 0, write_head := 0 }) ∧
      (p.read_head + n ≠ p.write_head →
        p.consumed n = .ok { p with read_head := p.read_head + n })) := by
  refine ⟨?_, ?_, ?_, ?_⟩
  · intro hc
    unfold Pipe.produced
    rcases hc with hc | hc
    · rw [if_pos hc]
      exact ⟨_, rfl⟩
    · by_cases hlk : p.locked
      · rw [if_pos hlk]
        exact ⟨_, rfl⟩
      · rw [if_neg hlk, if_pos hc]
        exact ⟨_, rfl⟩
  · intro hlk hle
    unfold Pipe.produced
    rw [if_neg (by simp [hlk]), if_neg (by omega)]
  · intro hc
    unfold Pipe.consumed
    rcases hc with hc | hc
    · rw [if_pos hc]
      exact ⟨_, rfl⟩
    · by_cases hlk : p.locked
      · rw [if_pos hlk]
        exact ⟨_, rfl⟩
      · rw [if_neg hlk, if_pos hc]
        exact ⟨_, rfl⟩
  · intro hlk hle
    unfold Pipe.consumed
    rw [if_neg (by simp [hlk]), if_neg (by omega)]
    refine ⟨fun he => by rw [if_pos he], fun he => by rw [if_neg he]⟩

/-- Witness for C5 at concrete inputs: a fresh 4-byte pipe accepts
`produced 3`; `consumed 1` on the fresh pipe fails (nothing readable). -/
theorem produced_consumed_spec_witness :
    (Pipe.make 4).produced 3 = .ok ⟨List.replicate 4 0, 0, 3, 512, false⟩ ∧
      ∃ e, (Pipe.make 4).consumed 1 = .error e :=
  ⟨(produced_consumed_spec (Pipe.make 4) 3).2.1 rfl (by decide),
   (produced_consumed_spec (Pipe.make 4) 1).2.2.1 (Or.inr (by decide))⟩

/-- C6: while `locked`, every mutating operation (`ensureCapacity`,
`produced`, `consumed`, `pack`, `clear`, `produce`, `consume`) fails and
returns no new state, so `storage`, `capacity`, `read_offset` and
`write_offset` are untouched; `lock()` fails iff already locked, `unlock()`
fails iff not locked, and a successful `lock`/`unlock` changes neither the
memory nor the offsets. -/
theorem lock_gating (p : Pipe) (n : Nat) (f : List Nat → List Nat × Int)
    (g : List Nat → Int) :
    (p.locked = true →
      (∃ e, p.ensureCapacity n = some (.error e)) ∧
      (∃ e, p.produced n = .error e) ∧
      (∃ e, p.consumed n = .error e) ∧
      (∃ e, p.pack = .error e) ∧
      (∃ e, p.clear = .error e) ∧
      (∃ e, p.produce f = .error e) ∧
      (∃ e, p.consume g = .error e)) ∧
    ((∃ e, p.lock = .error e) ↔ p.locked = true) ∧
    ((∃ e, p.unlock = .error e) ↔ p.locked = false) ∧
    (∀ q, p.lock = .ok q → q.memory = p.memory ∧
      q.read_head = p.read_head ∧ q.write_head = p.write_head) ∧
    (∀ q, p.unlock = .ok q → q.memory = p.memory ∧
      q.read_head = p.read_head ∧ q.write_head = p.write_head) := by
  refine ⟨fun hlk => ?_, ?_, ?_, ?_, ?_⟩
  · refine ⟨⟨"Pipe::ensureCapacity(): Buffer locked", ?_⟩,
      ⟨"Pipe::produced(): Buffer locked", ?_⟩,
      ⟨"Pipe::consumed(): Buffer locked", ?_⟩,
      ⟨"Pipe::pack(): Buffer locked", ?_⟩,
      ⟨"Pipe::clear(): Buffer locked", ?_⟩,
      ⟨"Pipe::produce(): Buffer locked", ?_⟩,
      ⟨"Pipe::consume(): Buffer locked", ?_⟩⟩
    · unfold Pipe.ensureCapacity
      rw [if_pos hlk]
    · unfold Pipe.produced
      rw [if_pos hlk]
    · unfold Pipe.consumed
      rw [if_pos hlk]
    · unfold Pipe.pack
      rw [if_pos hlk]
    · unfold Pipe.clear
      rw [if_pos hlk]
    · unfold Pipe.produce
      rw [if_pos hlk]
    · unfold Pipe.consume
      rw [if_pos hlk]
  · constructor
    · rintro ⟨e, he⟩
      by_contra hnl
      unfold Pipe.lock at he
      rw [if_neg hnl] at he
      exact absurd he (by simp)
    · intro hlk
      exact ⟨"Pipe::lock(): Buffer already locked",
        by unfold Pipe.lock; rw [if_pos hlk]⟩
  · constructor
    · rintro ⟨e, he⟩
      unfold Pipe.unlock at he
      by_cases hlk : p.locked
      · rw [if_neg (by simp [hlk])] at he
        exact absurd he (by simp)
      · simpa using hlk
    · intro hlf
      exact ⟨"Pipe::unlock(): Buffer not locked",
        by unfold Pipe.unlock; rw [if_pos (by simp [hlf])]⟩
  · intro q hq
    unfold Pipe.lock at hq
    split at hq
    · exact absurd hq (by simp)
    · injection hq with hq
      subst hq
      exact ⟨rfl, rfl, rfl⟩
  · intro q hq
    unfold Pipe.unlock at hq
    split at hq
    · exact absurd hq (by simp)
    · injection hq with hq
      subst hq
      exact ⟨rfl, rfl, rfl⟩

/-- Witness for C6 at a concrete locked pipe: `ensureCapacity` and `pack`
both refuse to run. -/
theorem lock_gating_witness :
    (∃ e, Pipe.ensureCapacity ⟨[0, 0], 0, 1, 512, true⟩ 1 = some (.error e)) ∧
      ∃ e, Pipe.pack ⟨[0, 0], 0, 1, 512, true⟩ = .error e :=
  ⟨((lock_gating ⟨[0, 0], 0, 1, 512, true⟩ 1 (fun _ => ([], 0))
      (fun _ => 0)).1 rfl).1,
   ((lock_gating ⟨[0, 0], 0, 1, 512, true⟩ 1 (fun _ => ([], 0))
      (fun _ => 0)).1 rfl).2.2.2.1⟩

theorem calcChunk_dvd (size : Nat) :
    defaultAllocationChunkSize ∣ calculateAllocationChunkSize size := by
  unfold calculateAllocationChunkSize
  exact dvd_mul_left _ _

theorem calcChunk_ge (size : Nat) : size ≤ calculateAllocationChunkSize size := by
  unfold calculateAllocationChunkSize
  simp only [defaultAllocationChunkSize]
  split <;> omega

theorem calcChunk_least (size m : Nat) (hd : defaultAllocationChunkSize ∣ m)
    (hm : size ≤ m) : calculateAllocationChunkSize size ≤ m := by
  obtain ⟨t, rfl⟩ := hd
  unfold calculateAllocationChunkSize
  simp only [defaultAllocationChunkSize] at *
  split <;> omega

/-- C3: when `n` exceeds the tail space plus the reclaimable prefix, the
window grows.  The growth unit is fixed at construction as `max(512, least
multiple of 512 ≥ requested size)`; `ensureCapacity` picks the least `count`
whose chunks suffice, the new capacity is the old plus `count` growth units,
the live bytes `[read_offset, write_offset)` are preserved unchanged and
contiguous from offset 0 of the new storage, and afterwards
`write_offset = old write_offset - old read_offset` and `read_offset = 0`. -/
theorem ensureCapacity_grow_spec (p : Pipe) (n : Nat)
    (hl : p.locked = false) (h1 : p.read_head ≤ p.write_head)
    (h2 : p.write_head ≤ p.memory.length) (hacs : 1 ≤ p.allocation_chunk_size)
    (hbig : (p.memory.length - p.write_head) + p.read_head < n) :
    (∀ size, (Pipe.make size).allocation_chunk_size =
        max defaultAllocationChunkSize (calculateAllocationChunkSize size) ∧
      defaultAllocationChunkSize ∣ calculateAllocationChunkSize size ∧
      size ≤ calculateAllocationChunkSize size ∧
      (∀ m, defaultAllocationChunkSize ∣ m → size ≤ m →
        calculateAllocationChunkSize size ≤ m)) ∧
    ∃ count, growCountAux p.allocation_chunk_size
        ((p.memory.length - p.write_head) + p.read_head) n n 1 = some count ∧
      n ≤ count * p.allocation_chunk_size +
        ((p.memory.length - p.write_head) + p.read_head) ∧
      (∀ j, j < count → j * p.allocation_chunk_size +
        ((p.memory.length - p.write_head) + p.read_head) < n) ∧
      p.ensureCapacity n = some (.ok (p.grown count, (p.grown count).wsize)) ∧
      (p.grown count).memory.length =
        p.memory.length + count * p.allocation_chunk_size ∧
      (p.grown count).memory.take (p.write_head - p.read_head) =
        (p.memory.drop p.read_head).take (p.write_head - p.read_head) ∧
      (p.grown count).write_head = p.write_head - p.read_head ∧
      (p.grown count).read_head = 0 := by
  refine ⟨fun size => ⟨?_, calcChunk_dvd size, calcChunk_ge size,
      fun m hd hm => calcChunk_least size m hd hm⟩, ?_⟩
  · unfold Pipe.make
    dsimp only
    exact Nat.max_comm _ _
  · obtain ⟨count, hgc⟩ := growCount_terminates p.allocation_chunk_size
      ((p.memory.length - p.write_head) + p.read_head) n hacs (by omega)
    obtain ⟨hb, hge1, hall⟩ := growCountAux_bound _ _ _ _ _ _ hgc
    refine ⟨count, hgc, by omega, ?_, ?_, length_grown p count, ?_, rfl, rfl⟩
    · intro j hj
      rcases Nat.eq_zero_or_pos j with rfl | hjpos
      · simpa using hbig
      · exact hall j hjpos hj
    · unfold Pipe.ensureCapacity
      rw [if_neg (by simp [hl]), if_neg (by omega), if_neg (by omega), hgc]
    · have hlive : ((p.memory.drop p.read_head).take
          (p.write_head - p.read_head)).length = p.write_head - p.read_head := by
        simp only [List.length_take, List.length_drop]
        omega
      show ((p.memory.drop p.read_head).take (p.write_head - p.read_head) ++
        List.replicate _ 0).take (p.write_head - p.read_head) = _
      exact List.take_left' hlive

/-- Witness for C3 at a concrete input: capacity 2, read 1, write 2, request
600 forces two 512-byte chunks. -/
theorem ensureCapacity_grow_spec_witness :
    (∀ size, (Pipe.make size).allocation_chunk_size =
        max defaultAllocationChunkSize (calculateAllocationChunkSize size) ∧
      defaultAllocationChunkSize ∣ calculateAllocationChunkSize size ∧
      size ≤ calculateAllocationChunkSize size ∧
      (∀ m, defaultAllocationChunkSize ∣ m → size ≤ m →
        calculateAllocationChunkSize size ≤ m)) ∧
    ∃ count, growCountAux 512 1 600 600 1 = some count ∧
      600 ≤ count * 512 + 1 ∧
      (∀ j, j < count → j * 512 + 1 < 600) ∧
      Pipe.ensureCapacity ⟨[9, 9], 1, 2, 512, false⟩ 600 =
        some (.ok (Pipe.grown ⟨[9, 9], 1, 2, 512, false⟩ count,
          (Pipe.grown ⟨[9, 9], 1, 2, 512, false⟩ count).wsize)) ∧
      (Pipe.grown ⟨[9, 9], 1, 2, 512, false⟩ count).memory.length =
        2 + count * 512 ∧
      (Pipe.grown ⟨[9, 9], 1, 2, 512, false⟩ count).memory.take 1 =
        (([9, 9] : List Nat).drop 1).take 1 ∧
      (Pipe.grown ⟨[9, 9], 1, 2, 512, false⟩ count).write_head = 1 ∧
      (Pipe.grown ⟨[9, 9], 1, 2, 512, false⟩ count).read_head = 0 :=
  ensureCapacity_grow_spec ⟨[9, 9], 1, 2, 512, false⟩ 600 rfl (by decide)
    (by decide) (by decide) (by decide)

/-- C10: a callback that violates the collaborator contract by returning a
positive count strictly larger than the view it was handed makes the
operation throw via the `produced`/`consumed` bound check, and the offsets
are never advanced (the failing call returns no state). -/
theorem callback_overrun_rejected (p : Pipe) (f : List Nat → List Nat × Int)
    (g : List Nat → Int) (hl : p.locked = false)
    (h1 : p.read_head ≤ p.write_head) (h2 : p.write_head ≤ p.memory.length) :
    ((f p.getAvailableWriteSpace).2 > (p.getAvailableWriteSpace.length : Int) →
      p.produce f = .error
        "Pipe::produced(): Produced bytes exceeds the number of available bytes") ∧
    (g p.getAvailableReadSpace > (p.getAvailableReadSpace.length : Int) →
      p.consume g = .error
        "Pipe::consumed(): Consumed bytes exceeds the number of available bytes") := by
  constructor
  · intro hover
    have hpos : (f p.getAvailableWriteSpace).2 > 0 :=
      lt_of_le_of_lt (Int.natCast_nonneg _) hover
    have hwlen : p.getAvailableWriteSpace.length =
        p.memory.length - p.write_head := by
      simp [Pipe.getAvailableWriteSpace]
    have hgt : (p.fill (f p.getAvailableWriteSpace).1).write_head +
        (f p.getAvailableWriteSpace).2.toNat >
        (p.fill (f p.getAvailableWriteSpace).1).memory.length := by
      rw [length_fill p (f p.getAvailableWriteSpace).1 h2,
        show (p.fill (f p.getAvailableWriteSpace).1).write_head =
          p.write_head from rfl]
      rw [hwlen] at hover
      omega
    have hprod : (p.fill (f p.getAvailableWriteSpace).1).produced
        (f p.getAvailableWriteSpace).2.toNat = .error
          "Pipe::produced(): Produced bytes exceeds the number of available bytes" := by
      unfold Pipe.produced
      rw [if_neg (by simp [Pipe.fill, hl]), if_pos hgt]
    unfold Pipe.produce
    rw [if_neg (by simp [hl]), if_pos hpos, hprod]
  · intro hover
    have hpos : g p.getAvailableReadSpace > 0 :=
      lt_of_le_of_lt (Int.natCast_nonneg _) hover
    have hrlen : p.getAvailableReadSpace.length =
        p.write_head - p.read_head := by
      simp only [Pipe.getAvailableReadSpace, List.length_take, List.length_drop]
      omega
    have hcons : p.consumed (g p.getAvailableReadSpace).toNat = .error
        "Pipe::consumed(): Consumed bytes exceeds the number of available bytes" := by
      unfold Pipe.consumed
      rw [hrlen] at hover
      rw [if_neg (by simp [hl]), if_pos (by omega)]
    unfold Pipe.consume
    rw [if_neg (by simp [hl]), if_pos hpos, hcons]

/-- Witness for C10 at concrete inputs: a producer claiming 3 bytes written
into a 2-byte tail, and a consumer claiming 1 byte read from an empty
window, are both rejected. -/
theorem callback_overrun_rejected_witness :
    Pipe.produce (Pipe.make 2) (fun _ => ([5, 5, 5], 3)) = .error
        "Pipe::produced(): Produced bytes exceeds the number of available bytes" ∧
      Pipe.consume (Pipe.make 2) (fun _ => 1) = .error
        "Pipe::consumed(): Consumed bytes exceeds the number of available bytes" :=
  ⟨(callback_overrun_rejected (Pipe.make 2) (fun _ => ([5, 5, 5], 3))
      (fun _ => 1) rfl (by decide) (by decide)).1 (by decide),
   (callback_overrun_rejected (Pipe.make 2) (fun _ => ([5, 5, 5], 3))
      (fun _ => 1) rfl (by decide) (by decide)).2 (by decide)⟩

/-- C7 as stated is false: it quantifies over every unlocked window with
enough tail space, but on a window that already holds a live byte the
consumer callback is handed the whole readable view (the old byte followed
by the new one), not exactly the freshly written bytes.  Concretely, with
storage `[9, 0]`, `read_offset = 0`, `write_offset = 1`, writing `[5]` via
the writable-region pattern succeeds, yet the readable view is `[9, 5]`,
and a detector callback that returns 1 only when handed exactly `[5]`
returns `-1` instead. -/
theorem produce_consume_roundtrip_cex :
    Pipe.produce ⟨[9, 0], 0, 1, 512, false⟩ (fun _ => ([5], 1)) =
      .ok (⟨[9, 5], 0, 2, 512, false⟩, 1) ∧
    (Pipe.getAvailableReadSpace ⟨[9, 5], 0, 2, 512, false⟩ ≠ [5]) ∧
    Pipe.consume ⟨[9, 5], 0, 2, 512, false⟩
        (fun v => if v = [5] then 1 else -1) =
      .ok (⟨[9, 5], 0, 2, 512, false⟩, -1) :=
  ⟨rfl, by decide, rfl⟩

/-- C7 amended: for every unlocked EMPTY window
(`read_offset = write_offset`) with tail space at least `k`, writing `k`
bytes via the writable-region pattern (a producer that fills the view with
those bytes and returns `k`) and then reading via the readable-region
pattern hands the consumer callback exactly those `k` bytes in order: the
readable view equals the written bytes, and a detector callback returning
`k` only on exactly those bytes completes the round trip returning `k`. -/
theorem produce_consume_roundtrip (p : Pipe) (bytes : List Nat) (k : Nat)
    (hl : p.locked = false) (hempty : p.read_head = p.write_head)
    (h2 : p.write_head ≤ p.memory.length) (hk : bytes.length = k)
    (hcap : k ≤ p.memory.length - p.write_head) :
    ∃ p1 p2, p.produce (fun _ => (bytes, (k : Int))) = .ok (p1, (k : Int)) ∧
      p1.getAvailableReadSpace = bytes ∧
      p1.consume (fun v => if v = bytes then (k : Int) else -1) =
        .ok (p2, (k : Int)) := by
  have hlen_fill := length_fill p bytes h2
  have hfr : (p.fill bytes).read_head = p.read_head := rfl
  have hfw : (p.fill bytes).write_head = p.write_head := rfl
  have hflk : (p.fill bytes).locked = p.locked := rfl
  have htake : ((p.fill bytes).memory.drop p.write_head).take k = bytes := by
    unfold Pipe.fill Pipe.getAvailableWriteSpace
    dsimp only
    rw [List.drop_left' (by simp only [List.length_take]; omega)]
    rw [List.take_take]
    rw [Nat.min_eq_left (by simp only [List.length_drop]; omega)]
    exact List.take_left' hk
  rcases Nat.eq_zero_or_pos k with rfl | hkpos
  · obtain rfl : bytes = [] := List.eq_nil_of_length_eq_zero hk
    have hread0 : (p.fill []).getAvailableReadSpace = [] := by
      unfold Pipe.getAvailableReadSpace
      rw [hfr, hfw, hempty]
      simp
    refine ⟨p.fill [], p.fill [], ?_, hread0, ?_⟩
    · unfold Pipe.produce
      rw [if_neg (by simp [hl])]
      dsimp only
      rw [if_neg (by simp)]
    · unfold Pipe.consume
      dsimp only
      rw [hread0]
      rw [if_neg (by simp [Pipe.fill, hl])]
      simp
  · have hkint : (0 : Int) < (k : Int) := by exact_mod_cast hkpos
    have hcast : ((k : Int)).toNat = k := Int.toNat_natCast k
    have hprod : (p.fill bytes).produced k =
        .ok { p.fill bytes with write_head := (p.fill bytes).write_head + k } := by
      unfold Pipe.produced
      rw [if_neg (by rw [hflk, hl]; simp),
        if_neg (by rw [hfw, hlen_fill]; omega)]
    have h1r : ({ p.fill bytes with
        write_head := (p.fill bytes).write_head + k } : Pipe).read_head =
        p.read_head := rfl
    have h1w : ({ p.fill bytes with
        write_head := (p.fill bytes).write_head + k } : Pipe).write_head =
        p.write_head + k := rfl
    have h1l : ({ p.fill bytes with
        write_head := (p.fill bytes).write_head + k } : Pipe).locked =
        p.locked := rfl
    have h1m : ({ p.fill bytes with
        write_head := (p.fill bytes).write_head + k } : Pipe).memory =
        (p.fill bytes).memory := rfl
    have hread1 : ({ p.fill bytes with
        write_head := (p.fill bytes).write_head + k } : Pipe).getAvailableReadSpace =
        bytes := by
      unfold Pipe.getAvailableReadSpace
      rw [h1r, h1w, h1m, hempty,
        show p.write_head + k - p.write_head = k from by omega]
      exact htake
    have hcons : ({ p.fill bytes with
        write_head := (p.fill bytes).write_head + k } : Pipe).consumed k =
        .ok { { p.fill bytes with
          write_head := (p.fill bytes).write_head + k } with
          read_head := 0, write_head := 0 } := by
      unfold Pipe.consumed
      rw [if_neg (by rw [h1l, hl]; simp),
        if_neg (by rw [h1r, h1w, hempty]; omega),
        if_pos (by rw [h1r, h1w, hempty])]
    refine ⟨{ p.fill bytes with write_head := (p.fill bytes).write_head + k },
      { { p.fill bytes with write_head := (p.fill bytes).write_head + k } with
        read_head := 0, write_head := 0 }, ?_, hread1, ?_⟩
    · unfold Pipe.produce
      rw [if_neg (by simp [hl])]
      dsimp only
      rw [if_pos hkint, hcast, hprod]
    · unfold Pipe.consume
      dsimp only
      rw [hread1]
      have hdet : (if bytes = bytes then (k : Int) else -1) = (k : Int) :=
        if_pos rfl
      rw [hdet]
      rw [if_neg (by rw [h1l, hl]; simp)]
      rw [if_pos hkint, hcast, hcons]

/-- Witness for the amended C7 at a concrete input: an empty 3-byte pipe
round-trips the two bytes `[7, 8]`. -/
theorem produce_consume_roundtrip_witness :
    ∃ p1 p2, Pipe.produce (Pipe.make 3) (fun _ => ([7, 8], 2)) =
        .ok (p1, 2) ∧
      p1.getAvailableReadSpace = [7, 8] ∧
      p1.consume (fun v => if v = [7, 8] then 2 else -1) = .ok (p2, 2) :=
  produce_consume_roundtrip (Pipe.make 3) [7, 8] 2 rfl rfl (by decide) rfl
    (by decide)

end PipeModel
